import Mathlib

/-!
# Shallow embedding of the Hamiltonian-cycle ZKP protocol engine

This file embeds the TypeScript sources of the `zi-kurs` repository
(graph model, permutation utilities, commitment scheme, Hamiltonian-cycle
validator, Prover and Verifier engines) as executable Lean definitions
and proves or refutes the specification claims about them.

Modelling conventions:
* JS `number` values flowing through the protocol are integers here (`Int`);
  vertex counts are `Nat`.
* Functions that can `throw` return `Except String α`; the error string is
  the thrown message.
* The ambient cryptographic randomness (salts, random 32-bit words) and the
  SHA-256 hash are injected as explicit parameters, following the spec's
  "ambient randomness as explicit context" design note: `hashFn` stands for
  SHA-256, `rand i` for the `i`-th `readUInt32BE(randomBytes(4))` value,
  `salt` for `randomBytes(32).toString("hex")`.
* JS array indexing `a[i]` (which yields `undefined` out of bounds) is
  modelled by `jsIndex`, returning `Option`.
-/

namespace ZiKurs

/-- JS array read `a[i]` for an `Int` index: `undefined` out of bounds. -/
def jsIndex (l : List Int) (i : Int) : Option Int :=
  if 0 ≤ i ∧ i < l.length then some (l.getD i.toNat 0) else none

/-- `src/utils/read-from-file.ts`: `CreateGraphType`.  `edges` entries are
raw number lists as parsed from the file (1-indexed vertex names). -/
structure CreateGraphType where
  vertexCount : Nat
  edgeCount : Nat
  edges : List (List Int)
deriving Repr, DecidableEq

/-- `src/models/graph.ts`: class `Graph`.  The adjacency map of the source
always mirrors `edgesList` (both are updated together by the only mutator
`addEdge`), so the state is `vertexCount` (= the key set `{0..n-1}` of
`adjacencyList`) plus the stored edge list. -/
structure Graph where
  vertexCount : Nat
  edgesList : List (Int × Int)
deriving Repr, DecidableEq

instance : Inhabited Graph := ⟨⟨0, []⟩⟩

/-- `Graph.hasEdge`: membership in the adjacency sets; the sets hold exactly
both orientations of every stored edge. -/
def Graph.hasEdge (g : Graph) (u v : Int) : Bool :=
  g.edgesList.any (fun e => (e.1 = u ∧ e.2 = v) ∨ (e.1 = v ∧ e.2 = u))

/-- `Graph.getVertexCount` (the size of `adjacencyList`). -/
def Graph.getVertexCount (g : Graph) : Nat := g.vertexCount

/-- `Graph.getEdgeCount`. -/
def Graph.getEdgeCount (g : Graph) : Nat := g.edgesList.length

/-- `Graph.getEdges` (returns a copy of the stored list). -/
def Graph.getEdges (g : Graph) : List (Int × Int) := g.edgesList

/-- `Graph.addEdge(u, v)`: throws on a self-loop or when either endpoint is
not a key of `adjacencyList` (i.e. not in `[0, n)`); otherwise records the
edge normalized as (min, max). -/
def Graph.addEdge (g : Graph) (u v : Int) : Except String Graph :=
  if u = v then .error "Self-loops are not allowed"
  else if ¬(0 ≤ u ∧ u < g.vertexCount ∧ 0 ≤ v ∧ v < g.vertexCount) then
    .error ("Vertex out of range: " ++ toString u ++ " or " ++ toString v)
  else
    .ok { g with edgesList :=
            g.edgesList ++ [if u < v then (u, v) else (v, u)] }

/-- The edge preprocessing of the `Graph` constructor: drop entries of
length < 2, shift each endpoint down by one (`1-indexed -> 0-indexed`) and
normalize the pair as (min, max). -/
def constructorEdges (inputEdges : List (List Int)) : List (Int × Int) :=
  (inputEdges.filter (fun e => 2 ≤ e.length)).map (fun e =>
    let u := e.getD 0 0 - 1
    let v := e.getD 1 0 - 1
    if u < v then (u, v) else (v, u))

/-- The `Graph` constructor: initialize `n` empty adjacency sets, then
`addEdge` every preprocessed input edge in order. -/
def mkGraph (input : CreateGraphType) : Except String Graph :=
  (constructorEdges input.edges).foldlM
    (fun g e => g.addEdge e.1 e.2) ⟨input.vertexCount, []⟩

/-! ## Hamiltonian-cycle validator (`src/models/hamiltonian-cycle.ts`) -/

/-- The first loop of `isValidHamiltonianCycle`: walk the sequence with a
`seen` set, returning `false` on the first out-of-range vertex or the first
duplicate. -/
def cycleVerticesOk (n : Nat) (seen : List Int) : List Int → Bool
  | [] => true
  | v :: rest =>
    if v < 0 ∨ (n : Int) ≤ v then false
    else if seen.contains v then false
    else cycleVerticesOk n (v :: seen) rest

/-- `isValidHamiltonianCycle(cycle, graph)`. -/
def isValidHamiltonianCycle (cycle : List Int) (graph : Graph) : Bool :=
  let n := graph.getVertexCount
  if cycle.length ≠ n then false
  else if ¬(cycleVerticesOk n [] cycle) then false
  else (List.range n).all (fun i =>
    graph.hasEdge (cycle.getD i 0) (cycle.getD ((i + 1) % n) 0))

/-! ## Permutation utilities (`src/utils/permutation.ts`) -/

/-- One Fisher–Yates swap `[perm[i], perm[j]] = [perm[j], perm[i]]`.  The
source's `undefined` guard never fires: both indices are in bounds at every
call site. -/
def listSwap (p : List Int) (i j : Nat) : List Int :=
  (p.set i (p.getD j 0)).set j (p.getD i 0)

/-- The descending loop of `generateRandomPermutation`: `fyRun rand i p`
performs the swaps for indices `i, i-1, ..., 1`; `rand i` is the uniform
32-bit word `randomBytes(4).readUInt32BE(0)` drawn at step `i`. -/
def fyRun (rand : Nat → Nat) : Nat → List Int → List Int
  | 0, p => p
  | i + 1, p => fyRun rand i (listSwap p (i + 1) (rand (i + 1) % (i + 2)))

/-- `generateRandomPermutation(n)` with the random source injected. -/
def generateRandomPermutation (n : Nat) (rand : Nat → Nat) : List Int :=
  fyRun rand (n - 1) ((List.range n).map Int.ofNat)

/-- `applyPermutationToGraph(graph, perm)`. -/
def applyPermutationToGraph (graph : Graph) (perm : List Int) :
    Except String Graph :=
  let n := graph.getVertexCount
  if perm.length ≠ n then
    .error ("Permutation length " ++ toString perm.length ++
      " does not match graph size " ++ toString n)
  else if perm.dedup.length ≠ n then
    .error "Invalid permutation: not a bijection"
  else do
    let permutedEdges ← graph.getEdges.mapM (fun e =>
      match jsIndex perm e.1, jsIndex perm e.2 with
      | some permU, some permV => .ok [permU, permV]
      | _, _ => .error ("Invalid permutation index for edge (" ++
          toString e.1 ++ ", " ++ toString e.2 ++ ")"))
    mkGraph ⟨n, permutedEdges.length, permutedEdges⟩

/-- `applyPermutationToCycle(cycle, perm)`. -/
def applyPermutationToCycle (cycle perm : List Int) :
    Except String (List Int) :=
  cycle.mapM (fun vertex =>
    match jsIndex perm vertex with
    | some permuted => .ok permuted
    | none => .error ("Invalid permutation index for vertex " ++
        toString vertex))

/-! ## Graph isomorphism check (`Graph.isIsomorphicTo`) -/

/-- `Graph.inversePermutation` as used by `isIsomorphicTo`: the JS code
fills `inv[perm[i]] = i` for ascending `i` (later writes win) and reads may
yield `undefined`; modelled as the last preimage of `u`, if any. -/
def invLookup (perm : List Int) (u : Int) : Option Int :=
  (List.range perm.length).foldl
    (fun acc i => if perm.getD i 0 = u then some (Int.ofNat i) else acc) none

/-- `Graph.isIsomorphicTo(other, permutation)`. -/
def Graph.isIsomorphicTo (g : Graph) (other : Graph) (permutation : List Int) :
    Bool :=
  let n := g.getVertexCount
  if other.getVertexCount ≠ n then false
  else if permutation.length ≠ n then false
  else if permutation.dedup.length ≠ n then false
  else
    (g.edgesList.all (fun e =>
      match jsIndex permutation e.1, jsIndex permutation e.2 with
      | some permU, some permV => other.hasEdge permU permV
      | _, _ => false)) &&
    (other.getEdges.all (fun e =>
      match invLookup permutation e.1, invLookup permutation e.2 with
      | some origU, some origV => g.hasEdge origU origV
      | _, _ => false))

/-! ## Commitment scheme (`src/utils/commitment.ts`)

`hashFn` stands for hex-encoded SHA-256 and `salt` for the fresh
`randomBytes(32).toString("hex")` drawn by `createCommitment`. -/

structure Commitment where
  hash : String
  salt : String
deriving Repr, DecidableEq

/-- `createCommitment(data)`. -/
def createCommitment (hashFn : String → String) (salt data : String) :
    Commitment :=
  ⟨hashFn (data ++ salt), salt⟩

/-- `openCommitment(commitment, data)`. -/
def openCommitment (hashFn : String → String) (c : Commitment)
    (data : String) : Bool :=
  hashFn (data ++ c.salt) = c.hash

/-- The comparator of `serializeGraph`'s `.sort`: ascending by `u`, then `v`. -/
def edgeLe (a b : Int × Int) : Bool :=
  a.1 < b.1 ∨ (a.1 = b.1 ∧ a.2 ≤ b.2)

/-- Insertion step of the deterministic sort used to model `Array.sort`. -/
def insertEdge (e : Int × Int) : List (Int × Int) → List (Int × Int)
  | [] => [e]
  | f :: rest => if edgeLe e f then e :: f :: rest else f :: insertEdge e rest

/-- `Array.sort` with `edgeLe` (any correct sort yields the same string on
the normalized pairs being serialized). -/
def sortEdges (l : List (Int × Int)) : List (Int × Int) :=
  l.foldr insertEdge []

/-- `serializeGraph(graph)`: normalize, sort, join as `"u,v|u,v|..."`.
This private helper appears identically in `commitment.ts` and in
`roles/verifier.ts`. -/
def serializeGraph (graph : Graph) : String :=
  let sortedEdges := sortEdges
    (graph.getEdges.map (fun e => if e.1 < e.2 then e else (e.2, e.1)))
  String.intercalate "|"
    (sortedEdges.map (fun e => toString e.1 ++ "," ++ toString e.2))

/-- `commitToGraph(graph, permutation)` — the permutation argument is
accepted and ignored by the source. -/
def commitToGraph (hashFn : String → String) (salt : String) (graph : Graph)
    (permutation : List Int) : Commitment :=
  createCommitment hashFn salt (serializeGraph graph)

/-! ## Protocol data types (`src/models/zkp-types.ts`) -/

/-- `Challenge = 0 | 1`. -/
inductive Challenge where
  | ch0
  | ch1
deriving Repr, DecidableEq

/-- `ProofResponse`.  In `zkp-types.ts` the `type: 1` member carries only
`cycleEdges`; the Verifier nevertheless reads `permutedGraphEdges` from it,
so that field is modelled as the JS property access it is: present
(`some`) or `undefined` (`none`). -/
inductive ProofResponse where
  | reveal0 (permutation : List Int) (permutedGraphEdges : List (Int × Int))
  | reveal1 (permutedGraphEdges : Option (List (Int × Int)))
      (cycleEdges : List (Int × Int))
deriving Repr, DecidableEq

/-- `ProofRound`. -/
structure ProofRound where
  commitment : Commitment
  response : ProofResponse
deriving Repr, DecidableEq

/-- `ZKPProof`. -/
structure ZKPProof where
  rounds : List ProofRound
  k : Nat
deriving Repr, DecidableEq

/-! ## Prover engine (`src/prover.ts`)

The `Prover` instance state `(graph, hamiltonianCycle)` is passed
explicitly; `rand` and `salt` inject the randomness drawn per round. -/

/-- `Prover.generateCommitment()`. -/
def generateCommitment (hashFn : String → String) (salt : String)
    (rand : Nat → Nat) (graph : Graph) :
    Except String (Graph × List Int × Commitment) := do
  let n := graph.getVertexCount
  let permutation := generateRandomPermutation n rand
  let permutedGraph ← applyPermutationToGraph graph permutation
  let commitment := commitToGraph hashFn salt permutedGraph permutation
  .ok (permutedGraph, permutation, commitment)

/-- The edge-building loop of the challenge-1 branch of
`respondToChallenge`: consecutive cycle vertices as normalized pairs. -/
def cycleToEdges (permutedCycle : List Int) : List (Int × Int) :=
  (List.range permutedCycle.length).map (fun i =>
    let current := permutedCycle.getD i 0
    let next := permutedCycle.getD ((i + 1) % permutedCycle.length) 0
    if current < next then (current, next) else (next, current))

/-- `Prover.respondToChallenge(challenge, permutedGraph, permutation)`.
The challenge-1 response carries no `permutedGraphEdges` property. -/
def respondToChallenge (hamiltonianCycle : List Int) (challenge : Challenge)
    (permutedGraph : Graph) (permutation : List Int) :
    Except String ProofResponse :=
  match challenge with
  | .ch0 => .ok (.reveal0 permutation permutedGraph.getEdges)
  | .ch1 => do
    let permutedCycle ← applyPermutationToCycle hamiltonianCycle permutation
    .ok (.reveal1 none (cycleToEdges permutedCycle))

/-- The round loop of `generateProof`; round `i` draws `salts i` and
`rands i`. -/
def proverRounds (hashFn : String → String) (salts : Nat → String)
    (rands : Nat → Nat → Nat) (graph : Graph) (hamiltonianCycle : List Int) :
    Nat → List Challenge → Except String (List ProofRound)
  | _, [] => .ok []
  | i, challenge :: rest => do
    let (permutedGraph, permutation, commitment) ←
      generateCommitment hashFn (salts i) (rands i) graph
    let response ←
      respondToChallenge hamiltonianCycle challenge permutedGraph permutation
    let tail ← proverRounds hashFn salts rands graph hamiltonianCycle
      (i + 1) rest
    .ok (⟨commitment, response⟩ :: tail)

/-- `Prover.generateProof(k, challenges)`. -/
def generateProof (hashFn : String → String) (salts : Nat → String)
    (rands : Nat → Nat → Nat) (graph : Graph) (hamiltonianCycle : List Int)
    (k : Nat) (challenges : List Challenge) : Except String ZKPProof :=
  if challenges.length ≠ k then
    .error ("Challenges array length " ++ toString challenges.length ++
      " does not match k=" ++ toString k)
  else do
    let rounds ← proverRounds hashFn salts rands graph hamiltonianCycle
      0 challenges
    .ok ⟨rounds, k⟩

/-! ## Verifier engine (`src/roles/verifier.ts`) -/

/-- The scan loop of `Verifier.isValidPermutation`: reject the first
out-of-range or repeated value; at the end check `seen.size === n`. -/
def permCheckLoop (n : Nat) (seen : List Int) : List Int → Bool
  | [] => seen.length = n
  | value :: rest =>
    if value < 0 ∨ (n : Int) ≤ value then false
    else if seen.contains value then false
    else permCheckLoop n (value :: seen) rest

/-- `Verifier.isValidPermutation(permutation, n)`. -/
def isValidPermutation (permutation : List Int) (n : Nat) : Bool :=
  if permutation.length ≠ n then false
  else permCheckLoop n [] permutation

/-- `Verifier.reconstructGraphFromEdges(edges, vertexCount)`: feeds the
revealed pairs back through the `Graph` constructor. -/
def reconstructGraphFromEdges (edges : List (Int × Int))
    (vertexCount : Nat) : Except String Graph :=
  mkGraph ⟨vertexCount, edges.length, edges.map (fun e => [e.1, e.2])⟩

/-- The outcome record `{ valid, errorType? }` of `verifyRound`. -/
structure RoundResult where
  valid : Bool
  errorType : Option String
deriving Repr, DecidableEq

/-- JS `Set.add` keeps insertion order: append if new. -/
def addNbr (l : List Int) (x : Int) : List Int :=
  if l.contains x then l else l ++ [x]

/-- `adjacency.get(u)?.add(v)` of `edgesToCycle`: a no-op unless `u` is a
key, i.e. `u ∈ [0, n)`. -/
def adjInsert (n : Nat) (adj : Int → List Int) (u v : Int) : Int → List Int :=
  fun i => if i = u ∧ 0 ≤ u ∧ u < (n : Int) then addNbr (adj i) v else adj i

/-- The adjacency map built by `edgesToCycle` (`Set` iteration order is
insertion order). -/
def buildAdjacency (n : Nat) (edges : List (Int × Int)) : Int → List Int :=
  edges.foldl (fun adj e => adjInsert n (adjInsert n adj e.1 e.2) e.2 e.1)
    (fun _ => [])

/-- The tracing loop of `edgesToCycle`: `n - 1` steps, each moving to the
first unvisited neighbour. -/
def traceLoop (adj : Int → List Int) :
    Nat → List Int × List Int × Int → Option (List Int × List Int × Int)
  | 0, st => some st
  | steps + 1, (cycle, visited, current) =>
    match (adj current).find? (fun v => ¬ visited.contains v) with
    | none => none
    | some next =>
      traceLoop adj steps (cycle ++ [next], visited ++ [next], next)

/-- `Verifier.edgesToCycle(edges, n)`: `none` models the `null` returns. -/
def edgesToCycle (edges : List (Int × Int)) (n : Nat) : Option (List Int) :=
  if edges.length ≠ n then none
  else
    let adjacency := buildAdjacency n edges
    if ¬ ((List.range n).all (fun i => (adjacency i).length = 2)) then none
    else
      match traceLoop adjacency (n - 1) ([0], [0], 0) with
      | none => none
      | some (cycle, _, _) =>
        let last := cycle.getD (cycle.length - 1) 0
        if n = 0 then none  -- `adjacency.get(0)` is `undefined`
        else if ¬ (adjacency 0).contains last then none
        else some cycle

/-- The first `for`-loop over `cycleEdges` in the challenge-1 branch of
`verifyRound`: per edge, the range check precedes the self-loop check, and
the first offending edge decides the reported reason. -/
def cycleEdgesRangeCheck (n : Nat) : List (Int × Int) → Option String
  | [] => none
  | e :: rest =>
    if ¬ (0 ≤ e.1 ∧ e.1 < (n : Int) ∧ 0 ≤ e.2 ∧ e.2 < (n : Int)) then
      some "Ребро вне допустимого диапазона"
    else if e.1 = e.2 then some "Self-loop недопустим"
    else cycleEdgesRangeCheck n rest

/-- The second `for`-loop over `cycleEdges` (the "критическая проверка"):
every revealed cycle edge must exist in the reconstructed G′; the message
names the first missing edge. -/
def cycleEdgesInGraphCheck (g : Graph) : List (Int × Int) → Option String
  | [] => none
  | e :: rest =>
    if ¬ g.hasEdge e.1 e.2 then
      some ("Ребро цикла (" ++ toString e.1 ++ ", " ++ toString e.2 ++
        ") не существует в графе G'")
    else cycleEdgesInGraphCheck g rest

/-- `Verifier.verifyRound(proofRound, originalGraph, roundNumber)`.  The
`roundNumber` parameter is unused by the source.  A thrown JS error
(`TypeError` from the `undefined` `permutedGraphEdges` of a challenge-1
response, or an exception from the `Graph` constructor) is `Except.error`. -/
def verifyRound (hashFn : String → String) (proofRound : ProofRound)
    (originalGraph : Graph) (roundNumber : Nat) :
    Except String RoundResult :=
  let _ := roundNumber
  let n := originalGraph.getVertexCount
  match proofRound.response with
  | .reveal0 permutation permutedGraphEdges =>
    if ¬ isValidPermutation permutation n then
      .ok ⟨false, some "Перестановка невалидна"⟩
    else do
      let permutedGraph ← reconstructGraphFromEdges permutedGraphEdges n
      let serialized := serializeGraph permutedGraph
      if ¬ openCommitment hashFn proofRound.commitment serialized then
        .ok ⟨false, some "Коммит не соответствует графу G'"⟩
      else if ¬ originalGraph.isIsomorphicTo permutedGraph permutation then
        .ok ⟨false, some "Несоответствие при проверке изоморфизма"⟩
      else .ok ⟨true, none⟩
  | .reveal1 permutedGraphEdges? cycleEdges =>
    match permutedGraphEdges? with
    | none => .error "TypeError: Cannot read properties of undefined"
    | some permutedGraphEdges => do
      let permutedGraph ← reconstructGraphFromEdges permutedGraphEdges n
      let serialized := serializeGraph permutedGraph
      if ¬ openCommitment hashFn proofRound.commitment serialized then
        .ok ⟨false, some "Коммит не соответствует графу G'"⟩
      else if cycleEdges.length ≠ n then
        .ok ⟨false, some "Неправильное количество рёбер в цикле"⟩
      else
        match cycleEdgesRangeCheck n cycleEdges with
        | some msg => .ok ⟨false, some msg⟩
        | none =>
          match cycleEdgesInGraphCheck permutedGraph cycleEdges with
          | some msg => .ok ⟨false, some msg⟩
          | none =>
            match edgesToCycle cycleEdges n with
            | none => .ok ⟨false, some "Рёбра не образуют цикл"⟩
            | some cycle =>
              if ¬ isValidHamiltonianCycle cycle permutedGraph then
                .ok ⟨false, some "Предъявленный цикл некорректен"⟩
              else .ok ⟨true, none⟩

/-- The outcome record `{ valid, failedRound?, errorType? }` of
`verifyProof`. -/
structure ProofResult where
  valid : Bool
  failedRound : Option Nat
  errorType : Option String
deriving Repr, DecidableEq

/-- The round loop of `verifyProof`; `i` is the 0-based position, rounds
are reported 1-based. -/
def verifyRoundsLoop (hashFn : String → String) (originalGraph : Graph) :
    Nat → List ProofRound → Except String ProofResult
  | _, [] => .ok ⟨true, none, none⟩
  | i, round :: rest => do
    let result ← verifyRound hashFn round originalGraph (i + 1)
    if ¬ result.valid then
      .ok ⟨false, some (i + 1), result.errorType⟩
    else verifyRoundsLoop hashFn originalGraph (i + 1) rest

/-- `Verifier.verifyProof(proof, originalGraph)`. -/
def verifyProof (hashFn : String → String) (proof : ZKPProof)
    (originalGraph : Graph) : Except String ProofResult :=
  if proof.rounds.length ≠ proof.k then
    .ok ⟨false, some 0, some "Количество раундов не соответствует k"⟩
  else verifyRoundsLoop hashFn originalGraph 0 proof.rounds

/-! ## Characterization of the `Graph` constructor -/

/-- The success condition of `addEdge u v` on an `n`-vertex graph. -/
def goodPair (n : Nat) (e : Int × Int) : Bool :=
  decide (e.1 ≠ e.2 ∧ 0 ≤ e.1 ∧ e.1 < (n : Int) ∧ 0 ≤ e.2 ∧ e.2 < (n : Int))

/-- The (min, max) normalization `addEdge` applies before pushing. -/
def normPair (e : Int × Int) : Int × Int :=
  if e.1 < e.2 then e else (e.2, e.1)

theorem addEdge_isOk (g : Graph) (u v : Int) :
    (g.addEdge u v).isOk = goodPair g.vertexCount (u, v) := by
  rw [Graph.addEdge]
  split
  · next h => subst h; simp [goodPair, Except.isOk, Except.toBool]
  · next h =>
    split
    · next h2 =>
      simp only [Except.isOk, Except.toBool, goodPair]
      symm
      simp only [decide_eq_false_iff_not]
      tauto
    · next h2 =>
      simp only [Except.isOk, Except.toBool, goodPair]
      symm
      simp only [decide_eq_true_eq]
      tauto

theorem addEdge_eq_ok (g : Graph) (u v : Int)
    (h : goodPair g.vertexCount (u, v) = true) :
    g.addEdge u v = .ok ⟨g.vertexCount, g.edgesList ++ [normPair (u, v)]⟩ := by
  simp only [goodPair, decide_eq_true_eq] at h
  simp only [Graph.addEdge, normPair]
  rw [if_neg h.1, if_neg (by tauto)]

theorem foldAdd_isOk (es : List (Int × Int)) :
    ∀ g : Graph,
      (es.foldlM (fun (g : Graph) e => g.addEdge e.1 e.2) g).isOk =
        es.all (fun e => goodPair g.vertexCount e) := by
  induction es with
  | nil => intro g; rfl
  | cons e rest ih =>
    intro g
    rw [List.foldlM_cons, List.all_cons]
    cases hok : g.addEdge e.1 e.2 with
    | error msg =>
      have hbad : goodPair g.vertexCount e = false := by
        rw [← addEdge_isOk g e.1 e.2, hok]; rfl
      rw [hbad, Bool.false_and]
      rfl
    | ok g' =>
      have hgood : goodPair g.vertexCount e = true := by
        rw [← addEdge_isOk g e.1 e.2, hok]; rfl
      have hvc : g'.vertexCount = g.vertexCount := by
        have h2 := addEdge_eq_ok g e.1 e.2 hgood
        rw [hok] at h2
        cases h2; rfl
      rw [hgood, Bool.true_and]
      have hbind :
          ((Except.ok g' : Except String Graph) >>= fun b =>
            rest.foldlM (fun (g : Graph) e => g.addEdge e.1 e.2) b) =
          rest.foldlM (fun (g : Graph) e => g.addEdge e.1 e.2) g' := rfl
      rw [hbind, ih g', hvc]

theorem foldAdd_eq_ok (es : List (Int × Int)) :
    ∀ g : Graph, (∀ e ∈ es, goodPair g.vertexCount e = true) →
      es.foldlM (fun (g : Graph) e => g.addEdge e.1 e.2) g =
        .ok ⟨g.vertexCount, g.edgesList ++ es.map normPair⟩ := by
  induction es with
  | nil => intro g _; simp only [List.map_nil, List.append_nil]; rfl
  | cons e rest ih =>
    intro g h
    rw [List.foldlM_cons, addEdge_eq_ok g e.1 e.2 (h e (by simp))]
    have hbind :
        ((Except.ok (⟨g.vertexCount, g.edgesList ++ [normPair (e.1, e.2)]⟩ :
            Graph) : Except String Graph) >>= fun b =>
          rest.foldlM (fun (g : Graph) e => g.addEdge e.1 e.2) b) =
        rest.foldlM (fun (g : Graph) e => g.addEdge e.1 e.2)
          ⟨g.vertexCount, g.edgesList ++ [normPair (e.1, e.2)]⟩ := rfl
    rw [hbind,
      ih ⟨g.vertexCount, g.edgesList ++ [normPair (e.1, e.2)]⟩
        (fun e' he' => h e' (List.mem_cons_of_mem _ he'))]
    simp [List.append_assoc]

/-- `mkGraph` succeeds exactly when every preprocessed edge passes
`addEdge`'s checks. -/
theorem mkGraph_isOk (inp : CreateGraphType) :
    (mkGraph inp).isOk =
      (constructorEdges inp.edges).all
        (fun e => goodPair inp.vertexCount e) := by
  rw [mkGraph, foldAdd_isOk]

/-- On success `mkGraph` stores exactly the preprocessed edges. -/
theorem mkGraph_eq_ok (inp : CreateGraphType)
    (h : ∀ e ∈ constructorEdges inp.edges,
      goodPair inp.vertexCount e = true) :
    mkGraph inp =
      .ok ⟨inp.vertexCount, (constructorEdges inp.edges).map normPair⟩ := by
  rw [mkGraph, foldAdd_eq_ok _ _ h]
  rfl

theorem normPair_of_normPair (a b : Int) :
    normPair (normPair (a, b)) = normPair (a, b) := by
  unfold normPair
  split <;> simp_all <;> omega

theorem normPair_eq_minmax (a b : Int) :
    normPair (a, b) = (min a b, max a b) := by
  unfold normPair
  split <;> (refine Prod.ext ?_ ?_ <;> simp <;> omega)

theorem goodPair_shift (n : Nat) (a b : Int) :
    goodPair n (normPair (a - 1, b - 1)) = true ↔
      (a ≠ b ∧ 1 ≤ a ∧ a ≤ (n : Int) ∧ 1 ≤ b ∧ b ≤ (n : Int)) := by
  unfold goodPair normPair
  split <;> (simp only [decide_eq_true_eq]; constructor <;> (intro h; omega))

theorem constructorEdges_eq (inputEdges : List (List Int)) :
    constructorEdges inputEdges =
      (inputEdges.filter (fun e => 2 ≤ e.length)).map
        (fun e => normPair (e.getD 0 0 - 1, e.getD 1 0 - 1)) := rfl

/-- C10 (implicit interface edge case): the `Graph` constructor shifts
every input edge down by one (1-indexed → 0-indexed).  (a) It succeeds iff
every input edge of length ≥ 2 has distinct endpoints in `[1, n]`; (b) on
success the stored edges are exactly the shifted normalized pairs
`(min(u-1,v-1), max(u-1,v-1))` of the kept input edges; (c) an input that
names vertex `0` in an edge makes construction throw. -/
theorem graph_constructor_one_indexed (inp : CreateGraphType) :
    ((mkGraph inp).isOk = true ↔
      ∀ e ∈ inp.edges, 2 ≤ e.length →
        (e.getD 0 0 ≠ e.getD 1 0 ∧
         1 ≤ e.getD 0 0 ∧ e.getD 0 0 ≤ (inp.vertexCount : Int) ∧
         1 ≤ e.getD 1 0 ∧ e.getD 1 0 ≤ (inp.vertexCount : Int))) ∧
    (∀ g, mkGraph inp = .ok g →
      g.getVertexCount = inp.vertexCount ∧
      g.getEdges = (inp.edges.filter (fun e => 2 ≤ e.length)).map
        (fun e => (min (e.getD 0 0 - 1) (e.getD 1 0 - 1),
                   max (e.getD 0 0 - 1) (e.getD 1 0 - 1)))) ∧
    ((∃ e ∈ inp.edges, 2 ≤ e.length ∧
        (e.getD 0 0 = 0 ∨ e.getD 1 0 = 0)) →
      (mkGraph inp).isOk = false) := by
  have hiff : (mkGraph inp).isOk = true ↔
      ∀ e ∈ inp.edges, 2 ≤ e.length →
        (e.getD 0 0 ≠ e.getD 1 0 ∧
         1 ≤ e.getD 0 0 ∧ e.getD 0 0 ≤ (inp.vertexCount : Int) ∧
         1 ≤ e.getD 1 0 ∧ e.getD 1 0 ≤ (inp.vertexCount : Int)) := by
    rw [mkGraph_isOk, List.all_eq_true, constructorEdges_eq]
    constructor
    · intro h e he hlen
      rw [← goodPair_shift inp.vertexCount]
      exact h _ (List.mem_map_of_mem _ (by rw [List.mem_filter]; simp [he, hlen]))
    · intro h x hx
      rw [List.mem_map] at hx
      obtain ⟨e, he, rfl⟩ := hx
      rw [List.mem_filter] at he
      rw [goodPair_shift inp.vertexCount]
      exact h e he.1 (by simpa using he.2)
  refine ⟨hiff, ?_, ?_⟩
  · intro g hg
    have hOk : (mkGraph inp).isOk = true := by rw [hg]; rfl
    have hall : ∀ e ∈ constructorEdges inp.edges,
        goodPair inp.vertexCount e = true := by
      rw [mkGraph_isOk, List.all_eq_true] at hOk
      exact hOk
    have heq := mkGraph_eq_ok inp hall
    rw [hg] at heq
    cases heq
    refine ⟨rfl, ?_⟩
    show (constructorEdges inp.edges).map normPair = _
    rw [constructorEdges_eq, List.map_map]
    apply List.map_congr_left
    intro e _
    show normPair (normPair (e.getD 0 0 - 1, e.getD 1 0 - 1)) = _
    rw [normPair_of_normPair, normPair_eq_minmax]
  · rintro ⟨e, he, hlen, h0⟩
    cases hOk : (mkGraph inp).isOk with
    | false => rfl
    | true =>
      obtain ⟨_, h1, h2, h3, h4⟩ := hiff.mp hOk e he hlen
      rcases h0 with h0 | h0 <;> omega

/-! ## The stored-edge invariant (claim C8) -/

/-- The part of the claimed edge-set invariant that the code maintains:
normalized pairs `u < v` (hence no self-loops) with endpoints in `[0, n)`. -/
def edgeInvariant (g : Graph) : Prop :=
  ∀ e ∈ g.edgesList,
    e.1 < e.2 ∧ 0 ≤ e.1 ∧ e.2 < (g.vertexCount : Int)

instance (g : Graph) : Decidable (edgeInvariant g) := by
  unfold edgeInvariant; infer_instance

theorem goodPair_normPair_inv (n : Nat) (e : Int × Int)
    (h : goodPair n e = true) :
    (normPair e).1 < (normPair e).2 ∧ 0 ≤ (normPair e).1 ∧
      (normPair e).2 < (n : Int) := by
  unfold goodPair at h
  simp only [decide_eq_true_eq] at h
  unfold normPair
  split
  · omega
  · dsimp only
    omega

/-- A duplicated input edge is stored twice: the constructor performs no
duplicate filtering, so `getEdges` can repeat a pair and `getEdgeCount`
counts multiplicity (claim C8's "no duplicates" fails). -/
def dupInput : CreateGraphType := ⟨2, 2, [[1, 2], [1, 2]]⟩

/-- The graph produced from `dupInput`. -/
def gDup : Graph := ⟨2, [(0, 1), (0, 1)]⟩

theorem graph_duplicate_edge_cex :
    mkGraph dupInput = .ok gDup ∧
    ¬ gDup.getEdges.Nodup ∧
    gDup.getEdgeCount = 2 ∧
    gDup.getEdges.dedup.length = 1 := by
  refine ⟨by rfl, by decide, rfl, by decide⟩

/-- C8 amended: every graph produced by the constructor, and every graph
obtained from an invariant-satisfying graph by a successful `addEdge`,
stores only normalized in-range non-loop pairs (duplicates, however, are
not prevented). -/
theorem graph_edge_invariant :
    (∀ (inp : CreateGraphType) (g : Graph),
      mkGraph inp = .ok g → edgeInvariant g) ∧
    (∀ (g : Graph) (u v : Int) (g' : Graph),
      edgeInvariant g → g.addEdge u v = .ok g' → edgeInvariant g') := by
  constructor
  · intro inp g hg
    have hOk : (mkGraph inp).isOk = true := by rw [hg]; rfl
    rw [mkGraph_isOk, List.all_eq_true] at hOk
    have heq := mkGraph_eq_ok inp hOk
    rw [hg] at heq
    cases heq
    intro e he
    rw [List.mem_map] at he
    obtain ⟨e', he', rfl⟩ := he
    exact goodPair_normPair_inv _ _ (hOk e' he')
  · intro g u v g' hInv hAdd
    have hgood : goodPair g.vertexCount (u, v) = true := by
      rw [← addEdge_isOk g u v, hAdd]; rfl
    have heq := addEdge_eq_ok g u v hgood
    rw [hAdd] at heq
    cases heq
    intro e he
    rw [List.mem_append] at he
    rcases he with he | he
    · exact hInv e he
    · rw [List.mem_singleton] at he
      subst he
      exact goodPair_normPair_inv _ _ hgood

/-- Witness for `graph_edge_invariant`: the Scenario-A graph satisfies the
invariant. -/
def inpA : CreateGraphType := ⟨5, 5, [[1, 2], [2, 3], [3, 4], [4, 5], [1, 5]]⟩

/-- The graph of Scenario A: the 5-cycle on vertices 0..4. -/
def gA : Graph := ⟨5, [(0, 1), (1, 2), (2, 3), (3, 4), (0, 4)]⟩

theorem graph_edge_invariant_witness : edgeInvariant gA :=
  graph_edge_invariant.1 inpA gA (by rfl)

/-! ## The cycle validator, characterized (claim C7) -/

theorem hasEdge_iff (g : Graph) (u v : Int) :
    g.hasEdge u v = true ↔
      ((u, v) ∈ g.getEdges ∨ (v, u) ∈ g.getEdges) := by
  unfold Graph.hasEdge Graph.getEdges
  rw [List.any_eq_true]
  constructor
  · rintro ⟨e, he, hcond⟩
    rw [decide_eq_true_eq] at hcond
    obtain ⟨a, b⟩ := e
    rcases hcond with ⟨h1, h2⟩ | ⟨h1, h2⟩ <;>
      [left; right] <;> (dsimp at h1 h2; subst h1; subst h2; exact he)
  · rintro (h | h)
    · exact ⟨(u, v), h, by simp⟩
    · exact ⟨(v, u), h, by simp⟩

theorem cycleVerticesOk_iff (n : Nat) :
    ∀ (l seen : List Int),
      cycleVerticesOk n seen l = true ↔
        ((∀ v ∈ l, 0 ≤ v ∧ v < (n : Int)) ∧ l.Nodup ∧
         ∀ v ∈ l, v ∉ seen) := by
  intro l
  induction l with
  | nil => intro seen; simp [cycleVerticesOk]
  | cons v rest ih =>
    intro seen
    by_cases h1 : v < 0 ∨ (n : Int) ≤ v
    · rw [cycleVerticesOk, if_pos h1]
      simp only [Bool.false_eq_true, false_iff]
      rintro ⟨hr, -, -⟩
      have := hr v (by simp)
      omega
    · by_cases h2 : seen.contains v = true
      · rw [cycleVerticesOk, if_neg h1, if_pos h2]
        simp only [Bool.false_eq_true, false_iff]
        rintro ⟨-, -, hs⟩
        exact hs v (by simp) (by simpa using h2)
      · rw [cycleVerticesOk, if_neg h1, if_neg h2, ih (v :: seen)]
        replace h2 : v ∉ seen := by simpa using h2
        constructor
        · rintro ⟨hr, hnd, hs⟩
          refine ⟨?_, ?_, ?_⟩
          · intro w hw
            rcases List.mem_cons.mp hw with rfl | hw
            · omega
            · exact hr w hw
          · rw [List.nodup_cons]
            exact ⟨fun hv => (hs v hv (by simp)), hnd⟩
          · intro w hw
            rcases List.mem_cons.mp hw with rfl | hw
            · exact h2
            · have := hs w hw
              intro hmem
              exact this (List.mem_cons_of_mem _ hmem)
        · rintro ⟨hr, hnd, hs⟩
          rw [List.nodup_cons] at hnd
          refine ⟨fun w hw => hr w (List.mem_cons_of_mem _ hw), hnd.2, ?_⟩
          intro w hw hmem
          rcases List.mem_cons.mp hmem with rfl | hmem
          · exact hnd.1 hw
          · exact hs w (List.mem_cons_of_mem _ hw) hmem

/-- C7: `isValidHamiltonianCycle(cycle, G)` returns true iff the sequence
has length `n`, its entries are distinct and in `[0, n)`, and each
consecutive pair (wrapping around) is an edge of `G`. -/
theorem isValidHamiltonianCycle_iff (cycle : List Int) (g : Graph) :
    isValidHamiltonianCycle cycle g = true ↔
      (cycle.length = g.getVertexCount ∧
       cycle.Nodup ∧
       (∀ v ∈ cycle, 0 ≤ v ∧ v < (g.getVertexCount : Int)) ∧
       (∀ i < g.getVertexCount,
         ((cycle.getD i 0, cycle.getD ((i + 1) % g.getVertexCount) 0)
            ∈ g.getEdges ∨
          (cycle.getD ((i + 1) % g.getVertexCount) 0, cycle.getD i 0)
            ∈ g.getEdges))) := by
  unfold isValidHamiltonianCycle
  by_cases hlen : cycle.length = g.getVertexCount
  · rw [if_neg (by simpa using hlen)]
    by_cases hv : cycleVerticesOk g.getVertexCount [] cycle = true
    · rw [if_neg (by simpa using hv)]
      rw [cycleVerticesOk_iff] at hv
      rw [List.all_eq_true]
      constructor
      · intro h
        refine ⟨hlen, hv.2.1, hv.1, fun i hi => ?_⟩
        rw [← hasEdge_iff]
        exact h i (List.mem_range.mpr hi)
      · rintro ⟨-, -, -, h⟩
        intro i hi
        rw [hasEdge_iff]
        exact h i (List.mem_range.mp hi)
    · rw [if_pos (by simpa using hv)]
      simp only [Bool.false_eq_true, false_iff]
      rintro ⟨-, hnd, hr, -⟩
      exact hv ((cycleVerticesOk_iff _ _ _).mpr ⟨hr, hnd, by simp⟩)
  · rw [if_pos (by simpa using hlen)]
    simp only [Bool.false_eq_true, false_iff]
    rintro ⟨h, -⟩
    exact hlen h

/-! ## Fisher–Yates: always a permutation, but not uniform (claim C9) -/

theorem set_getD_self : ∀ (p : List Int) (i : Nat), i < p.length →
    p.set i (p.getD i 0) = p
  | [], i, hi => by simp at hi
  | _ :: _, 0, _ => rfl
  | a :: t, i + 1, hi =>
    congrArg (a :: ·) (set_getD_self t i (by simpa using hi))

theorem cons_set_perm : ∀ (t : List Int) (m : Nat) (a : Int),
    m < t.length → (t.getD m 0 :: t.set m a).Perm (a :: t)
  | [], m, a, hm => by simp at hm
  | b :: s, 0, a, _ => List.Perm.swap a b s
  | b :: s, m + 1, a, hm => by
    have hk : m < s.length := by simpa using hm
    show (s.getD m 0 :: b :: s.set m a).Perm (a :: b :: s)
    exact ((List.Perm.swap b (s.getD m 0) (s.set m a)).trans
      ((cons_set_perm s m a hk).cons b)).trans (List.Perm.swap a b s)

theorem listSwap_perm : ∀ (p : List Int) (i j : Nat),
    i < p.length → j < p.length → (listSwap p i j).Perm p
  | [], _, _, hi, _ => by simp at hi
  | a :: t, 0, 0, _, _ => by
    show (a :: t).Perm (a :: t)
    exact List.Perm.refl _
  | a :: t, 0, k + 1, _, hj => by
    show (t.getD k 0 :: t.set k a).Perm (a :: t)
    exact cons_set_perm t k a (by simpa using hj)
  | a :: t, m + 1, 0, hi, _ => by
    show (t.getD m 0 :: t.set m a).Perm (a :: t)
    exact cons_set_perm t m a (by simpa using hi)
  | a :: t, m + 1, k + 1, hi, hj => by
    show (a :: listSwap t m k).Perm (a :: t)
    exact (listSwap_perm t m k (by simpa using hi) (by simpa using hj)).cons a

theorem fyRun_perm (rand : Nat → Nat) : ∀ (i : Nat) (p : List Int),
    i < p.length → (fyRun rand i p).Perm p
  | 0, p, _ => List.Perm.refl p
  | i + 1, p, h => by
    have hj : rand (i + 1) % (i + 2) < p.length := by
      have := Nat.mod_lt (rand (i + 1)) (y := i + 2) (by omega)
      omega
    have hlen : (listSwap p (i + 1) (rand (i + 1) % (i + 2))).length =
        p.length := by
      simp [listSwap]
    show (fyRun rand i (listSwap p (i + 1) (rand (i + 1) % (i + 2)))).Perm p
    exact (fyRun_perm rand i _ (by omega)).trans
      (listSwap_perm p (i + 1) _ h hj)

/-- `p` lists the values `0, ..., n-1` exactly once each. -/
def isPermList (n : Nat) (p : List Int) : Prop :=
  p.Perm ((List.range n).map Int.ofNat)

instance (n : Nat) (p : List Int) : Decidable (isPermList n p) := by
  unfold isPermList; infer_instance

theorem genPerm_isPermList (n : Nat) (rand : Nat → Nat) :
    isPermList n (generateRandomPermutation n rand) := by
  unfold isPermList generateRandomPermutation
  cases n with
  | zero => exact List.Perm.refl _
  | succ m => exact fyRun_perm rand m _ (by simp)

/-- C9 amended, positive part: every output of the Fisher–Yates shuffle is
a permutation of `[0, n)`, whatever the random words are. -/
theorem generateRandomPermutation_is_permutation (n : Nat)
    (rand : Nat → Nat) : isPermList n (generateRandomPermutation n rand) :=
  genPerm_isPermList n rand

/-- The input space of `generateRandomPermutation 3`: the two uniform
32-bit words read at steps `i = 2` and `i = 1`. -/
def fyInputSpace : Finset (Nat × Nat) :=
  Finset.range 4294967296 ×ˢ Finset.range 4294967296

/-- Present a pair of 32-bit words as the random stream of
`generateRandomPermutation 3` (step `i = 2` reads the first word). -/
def randOfPair (r : Nat × Nat) : Nat → Nat :=
  fun i => if i = 2 then r.1 else r.2

/-- How many of the equally likely random inputs produce the output `p`. -/
def permCount3 (p : List Int) : Nat :=
  (fyInputSpace.filter
    (fun r => generateRandomPermutation 3 (randOfPair r) = p)).card

/-- The six permutations of `[0, 3)`. -/
def perms3 : Finset (List Int) :=
  {[0, 1, 2], [0, 2, 1], [1, 0, 2], [1, 2, 0], [2, 0, 1], [2, 1, 0]}

theorem six_mul_ne_pow64 (c : ℕ) :
    4294967296 * 4294967296 = 6 * c → False := by
  intro h
  have h3 : (3 : ℕ) ∣ 2 ^ 64 := ⟨2 * c, by omega⟩
  have h32 := Nat.Prime.dvd_of_dvd_pow (by norm_num : Nat.Prime 3) h3
  norm_num at h32

/-- C9 counterexample at `n = 3`: with the random source uniform over its
32-bit outputs, the six permutations are not produced with equal
probability — otherwise `6` would divide the input-space size `2^64`,
contradicting `3 ∤ 2^64`.  The bias comes from `randomValue % (i + 1)`. -/
theorem fisher_yates_not_uniform_n3 :
    ¬ ∀ p q : List Int, isPermList 3 p → isPermList 3 q →
      permCount3 p = permCount3 q := by
  intro H
  have cover : ∀ r ∈ fyInputSpace,
      generateRandomPermutation 3 (randOfPair r) ∈ perms3 := by
    intro r _
    have hred : generateRandomPermutation 3 (randOfPair r) =
        listSwap (listSwap [0, 1, 2] 2 (r.1 % 3)) 1 (r.2 % 2) := rfl
    rw [hred]
    have h1 : r.1 % 3 = 0 ∨ r.1 % 3 = 1 ∨ r.1 % 3 = 2 := by omega
    have h2 : r.2 % 2 = 0 ∨ r.2 % 2 = 1 := by omega
    rcases h1 with h1 | h1 | h1 <;> rcases h2 with h2 | h2 <;>
      rw [h1, h2] <;> decide
  have hsum : fyInputSpace.card = ∑ b ∈ perms3, permCount3 b := by
    simp only [permCount3]
    exact Finset.card_eq_sum_card_fiberwise cover
  have hperm : ∀ p ∈ perms3, isPermList 3 p := by decide
  have hconst : ∀ p ∈ perms3, permCount3 p = permCount3 [0, 1, 2] :=
    fun p hp => H p [0, 1, 2] (hperm p hp) (by decide)
  rw [Finset.sum_const_nat hconst] at hsum
  have htot : fyInputSpace.card = 4294967296 * 4294967296 := by
    simp [fyInputSpace]
  have hp6 : perms3.card = 6 := by decide
  rw [htot, hp6] at hsum
  obtain ⟨c, hc⟩ : ∃ c, permCount3 [0, 1, 2] = c := ⟨_, rfl⟩
  rw [hc] at hsum
  exact six_mul_ne_pow64 c hsum

/-! ## Completeness fails: the permuted graph cannot be rebuilt (C1, C2, C4)

`applyPermutationToGraph` feeds 0-indexed pairs to the `Graph`
constructor, which shifts them down by one more.  For a genuine
permutation of `[0, n)` the vertex mapped to `0` turns into `-1`. -/

/-- The Hamiltonian cycle of Scenario A. -/
def cycleA : List Int := [0, 1, 2, 3, 4]

theorem applyPerm_gA_err (perm : List Int) (h : isPermList 5 perm) :
    (applyPermutationToGraph gA perm).isOk = false := by
  have hlen : perm.length = 5 := by simpa using h.length_eq
  have hnd : perm.Nodup := (h.nodup_iff).mpr (by decide)
  have hded : perm.dedup = perm := List.dedup_eq_self.mpr hnd
  obtain ⟨p0, p1, p2, p3, p4, rfl⟩ :
      ∃ a b c d e : Int, perm = [a, b, c, d, e] := by
    rcases perm with _ | ⟨p0, _ | ⟨p1, _ | ⟨p2, _ | ⟨p3, _ | ⟨p4, _ | ⟨p5, t⟩⟩⟩⟩⟩⟩ <;>
      first
        | (exact ⟨p0, p1, p2, p3, p4, rfl⟩)
        | simp at hlen
  have h0 : (0 : Int) ∈ [p0, p1, p2, p3, p4] := h.mem_iff.mpr (by decide)
  unfold applyPermutationToGraph
  rw [if_neg (by simp [Graph.getVertexCount, gA])]
  rw [hded]
  rw [if_neg (by simp [Graph.getVertexCount, gA])]
  show (mkGraph ⟨5, 5, [[p0, p1], [p1, p2], [p2, p3], [p3, p4], [p0, p4]]⟩).isOk
      = false
  rw [mkGraph_isOk]
  show ([normPair (p0 - 1, p1 - 1), normPair (p1 - 1, p2 - 1),
        normPair (p2 - 1, p3 - 1), normPair (p3 - 1, p4 - 1),
        normPair (p0 - 1, p4 - 1)].all (fun e => goodPair 5 e)) = false
  refine Bool.eq_false_iff.mpr (fun hall => ?_)
  rw [List.all_eq_true] at hall
  simp only [List.mem_cons, List.not_mem_nil, or_false] at h0
  rcases h0 with h0 | h0 | h0 | h0 | h0
  · have := hall (normPair (p0 - 1, p1 - 1)) (by simp)
    rw [goodPair_shift] at this; omega
  · have := hall (normPair (p0 - 1, p1 - 1)) (by simp)
    rw [goodPair_shift] at this; omega
  · have := hall (normPair (p1 - 1, p2 - 1)) (by simp)
    rw [goodPair_shift] at this; omega
  · have := hall (normPair (p2 - 1, p3 - 1)) (by simp)
    rw [goodPair_shift] at this; omega
  · have := hall (normPair (p3 - 1, p4 - 1)) (by simp)
    rw [goodPair_shift] at this; omega

theorem proverRounds_err (hashFn : String → String) (salts : Nat → String)
    (rands : Nat → Nat → Nat) (g : Graph) (hc : List Int) (i : Nat)
    (ch : Challenge) (rest : List Challenge) (msg : String)
    (h : applyPermutationToGraph g
        (generateRandomPermutation g.getVertexCount (rands i)) =
      .error msg) :
    proverRounds hashFn salts rands g hc i (ch :: rest) = .error msg := by
  unfold proverRounds generateCommitment
  dsimp only
  rw [h]
  rfl

/-- C1 (completeness — code bug): Scenario A's graph does have the valid
Hamiltonian cycle `[0,1,2,3,4]`, yet the honest Prover's
`generateProof(1, [c])` throws for every challenge and every randomness:
every sampled permutation of `[0,5)` maps some cycle edge onto vertex `0`,
which the 1-indexed `Graph` constructor shifts to `-1` and rejects. -/
theorem completeness_generateProof_throws :
    isValidHamiltonianCycle cycleA gA = true ∧
    ∀ (hashFn : String → String) (salts : Nat → String)
      (rands : Nat → Nat → Nat) (c : Challenge),
      (generateProof hashFn salts rands gA cycleA 1 [c]).isOk = false := by
  refine ⟨by decide, ?_⟩
  intro hashFn salts rands c
  have hperm := genPerm_isPermList 5 (rands 0)
  have herr := applyPerm_gA_err _ hperm
  obtain ⟨msg, hmsg⟩ : ∃ msg,
      applyPermutationToGraph gA
        (generateRandomPermutation gA.getVertexCount (rands 0)) =
        .error msg := by
    cases hap : applyPermutationToGraph gA
        (generateRandomPermutation 5 (rands 0)) with
    | error m => exact ⟨m, hap⟩
    | ok gp =>
      rw [hap] at herr
      exact Bool.noConfusion (show (true : Bool) = false from herr)
  unfold generateProof
  rw [if_neg (by simp)]
  rw [proverRounds_err hashFn salts rands gA cycleA 0 c [] msg hmsg]
  rfl

/-- A 2-vertex graph with the single edge (0, 1), as built from the
1-indexed input `[[1, 2]]`. -/
def g2 : Graph := ⟨2, [(0, 1)]⟩

/-- C2 (code bug): `applyPermutationToGraph` throws even for the identity
bijection `[0, 1]` on `g2`, because the permuted 0-indexed edge `(0, 1)`
is shifted to `(-1, 0)` by the `Graph` constructor. -/
theorem applyPermutationToGraph_shift_throws :
    mkGraph ⟨2, 1, [[1, 2]]⟩ = .ok g2 ∧
    isValidPermutation [0, 1] 2 = true ∧
    applyPermutationToGraph g2 [0, 1] =
      .error "Vertex out of range: -1 or 0" := by
  refine ⟨rfl, rfl, rfl⟩

/-- A 3-vertex graph with the single edge (1, 2) (1-indexed input
`[[2, 3]]`), on which `applyPermutationToGraph` happens not to throw. -/
def g3 : Graph := ⟨3, [(1, 2)]⟩

/-- What `applyPermutationToGraph g3 [0,1,2]` actually returns: the edge
shifted down to (0, 1). -/
def g3p : Graph := ⟨3, [(0, 1)]⟩

/-- C4 (code bug): the isomorphism round-trip
`G.isIsomorphicTo(applyPermutationToGraph(G, π), π)` fails already for the
identity permutation: the rebuilt graph's edges are shifted down by one,
so the exact two-sided check correctly reports a mismatch. -/
theorem isIsomorphicTo_roundtrip_fails :
    mkGraph ⟨3, 1, [[2, 3]]⟩ = .ok g3 ∧
    isValidPermutation [0, 1, 2] 3 = true ∧
    applyPermutationToGraph g3 [0, 1, 2] = .ok g3p ∧
    g3.isIsomorphicTo g3p [0, 1, 2] = false := by
  refine ⟨rfl, rfl, rfl, by decide⟩

/-- C3 (code bug): the challenge-1 response built by `respondToChallenge`
carries the permuted cycle edges normalized as (min, max) and neither the
permutation nor — contrary to the spec — the edge list of G′ (its
`permutedGraphEdges` property is absent, i.e. `undefined`); `verifyRound`
then crashes with a `TypeError` on every such response, for every graph
and commitment. -/
theorem challenge1_response_lacks_graph_edges :
    (∀ g : Graph,
      respondToChallenge cycleA .ch1 g [0, 1, 2, 3, 4] =
        .ok (.reveal1 none [(0, 1), (1, 2), (2, 3), (3, 4), (0, 4)])) ∧
    (∀ (hashFn : String → String) (com : Commitment) (g : Graph) (rn : Nat),
      verifyRound hashFn
        ⟨com, .reveal1 none [(0, 1), (1, 2), (2, 3), (3, 4), (0, 4)]⟩ g rn =
        .error "TypeError: Cannot read properties of undefined") := by
  exact ⟨fun g => rfl, fun hashFn com g rn => rfl⟩

/-! ## `verifyProof` structure: round-count gate and fail-fast order (C5) -/

theorem verifyRoundsLoop_accept_iff (hashFn : String → String) (G : Graph) :
    ∀ (rounds : List ProofRound) (i : Nat),
      verifyRoundsLoop hashFn G i rounds = .ok ⟨true, none, none⟩ ↔
        ∀ j (hj : j < rounds.length), ∃ out : RoundResult,
          verifyRound hashFn (rounds.get ⟨j, hj⟩) G (i + j + 1) = .ok out ∧
          out.valid = true
  | [], i => by
    constructor
    · intro _ j hj; exact absurd hj (by simp)
    · intro _; rfl
  | r :: rest, i => by
    rw [verifyRoundsLoop]
    cases hvr : verifyRound hashFn r G (i + 1) with
    | error e =>
      constructor
      · intro hL; exact Except.noConfusion hL
      · intro hall
        obtain ⟨o, ho, _⟩ := hall 0 (by simp)
        have ho' : verifyRound hashFn r G (i + 1) = .ok o := ho
        rw [hvr] at ho'
        exact Except.noConfusion ho'
    | ok out =>
      by_cases hv : out.valid = true
      · have hred :
            ((Except.ok out : Except String RoundResult) >>= fun result =>
              if ¬ result.valid then
                Except.ok (⟨false, some (i + 1), result.errorType⟩ : ProofResult)
              else verifyRoundsLoop hashFn G (i + 1) rest) =
            verifyRoundsLoop hashFn G (i + 1) rest := by
          show (if ¬ out.valid then _ else _) = _
          rw [if_neg (by simp [hv])]
        rw [hred, verifyRoundsLoop_accept_iff hashFn G rest (i + 1)]
        constructor
        · intro hrest j hj
          cases j with
          | zero => exact ⟨out, hvr, hv⟩
          | succ j' =>
            obtain ⟨o, ho, hov⟩ := hrest j' (by simpa using hj)
            exact ⟨o, ho, hov⟩
        · intro hall j hj
          obtain ⟨o, ho, hov⟩ := hall (j + 1) (by simpa using hj)
          exact ⟨o, ho, hov⟩
      · have hred :
            ((Except.ok out : Except String RoundResult) >>= fun result =>
              if ¬ result.valid then
                Except.ok (⟨false, some (i + 1), result.errorType⟩ : ProofResult)
              else verifyRoundsLoop hashFn G (i + 1) rest) =
            .ok ⟨false, some (i + 1), out.errorType⟩ := by
          show (if ¬ out.valid then _ else _) = _
          rw [if_pos hv]
        rw [hred]
        constructor
        · intro hL
          have h1 := Except.ok.inj hL
          exact absurd (congrArg ProofResult.valid h1) (by simp)
        · intro hall
          obtain ⟨o, ho, hov⟩ := hall 0 (by simp)
          have ho' : verifyRound hashFn r G (i + 1) = .ok o := ho
          rw [hvr] at ho'
          have h2 := Except.ok.inj ho'
          rw [← h2] at hov
          exact absurd hov hv

theorem verifyRoundsLoop_first_fail (hashFn : String → String) (G : Graph) :
    ∀ (rounds : List ProofRound) (i idx : Nat) (h : idx < rounds.length)
      (out : RoundResult),
      (∀ j (hj : j < idx), ∃ outj : RoundResult,
        verifyRound hashFn (rounds.get ⟨j, Nat.lt_trans hj h⟩) G (i + j + 1) =
          .ok outj ∧ outj.valid = true) →
      verifyRound hashFn (rounds.get ⟨idx, h⟩) G (i + idx + 1) = .ok out →
      out.valid = false →
      verifyRoundsLoop hashFn G i rounds =
        .ok ⟨false, some (i + idx + 1), out.errorType⟩
  | [], i, idx, h, out => by simp at h
  | r :: rest, i, 0, h, out => by
    intro _ hvr hbad
    rw [verifyRoundsLoop]
    have hvr' : verifyRound hashFn r G (i + 1) = .ok out := hvr
    rw [hvr']
    show (if ¬ out.valid then _ else _) = _
    rw [if_pos (by simp [hbad])]
  | r :: rest, i, idx + 1, h, out => by
    intro hpre hvr hbad
    have hlen : idx < rest.length := by simpa using h
    rw [verifyRoundsLoop]
    obtain ⟨o0, ho0, ho0v⟩ := hpre 0 (by omega)
    have ho0' : verifyRound hashFn r G (i + 1) = .ok o0 := ho0
    rw [ho0']
    show (if ¬ o0.valid then _ else _) = _
    rw [if_neg (by simp [ho0v])]
    have hpre' : ∀ j (hj : j < idx), ∃ outj : RoundResult,
        verifyRound hashFn (rest.get ⟨j, Nat.lt_trans hj hlen⟩) G
          ((i + 1) + j + 1) = .ok outj ∧ outj.valid = true :=
      fun j hj => hpre (j + 1) (by omega)
    have hvr' : verifyRound hashFn (rest.get ⟨idx, hlen⟩) G
        ((i + 1) + idx + 1) = .ok out := hvr
    have IH := verifyRoundsLoop_first_fail hashFn G rest (i + 1) idx hlen out
      hpre' hvr' hbad
    rw [IH]
    have heq : (i + 1) + idx + 1 = i + (idx + 1) + 1 := by omega
    rw [heq]

/-- C5: `verifyProof` rejects a round-count mismatch before verifying any
round (reporting `failedRound = 0`); otherwise it verifies rounds in
order, accepts iff every round's `verifyRound` outcome is valid, and
returns on the first invalid round, reporting that round's (1-based)
index together with that round's `errorType`. -/
theorem verifyProof_structure :
    ∀ (hashFn : String → String) (proof : ZKPProof) (G : Graph),
      (proof.rounds.length ≠ proof.k →
        verifyProof hashFn proof G =
          .ok ⟨false, some 0, some "Количество раундов не соответствует k"⟩) ∧
      (proof.rounds.length = proof.k →
        ((verifyProof hashFn proof G = .ok ⟨true, none, none⟩) ↔
          ∀ j (hj : j < proof.rounds.length), ∃ out : RoundResult,
            verifyRound hashFn (proof.rounds.get ⟨j, hj⟩) G (j + 1) =
              .ok out ∧ out.valid = true) ∧
        (∀ (idx : Nat) (h : idx < proof.rounds.length) (out : RoundResult),
          (∀ j (hj : j < idx), ∃ outj : RoundResult,
            verifyRound hashFn (proof.rounds.get ⟨j, Nat.lt_trans hj h⟩) G
              (j + 1) = .ok outj ∧ outj.valid = true) →
          verifyRound hashFn (proof.rounds.get ⟨idx, h⟩) G (idx + 1) =
            .ok out →
          out.valid = false →
          verifyProof hashFn proof G =
            .ok ⟨false, some (idx + 1), out.errorType⟩)) := by
  intro hashFn proof G
  refine ⟨?_, ?_⟩
  · intro hne
    unfold verifyProof
    rw [if_pos hne]
  · intro heq
    constructor
    · unfold verifyProof
      rw [if_neg (fun hcon => hcon heq)]
      exact verifyRoundsLoop_accept_iff hashFn G proof.rounds 0
    · intro idx h out hpre hvr hbad
      unfold verifyProof
      rw [if_neg (fun hcon => hcon heq)]
      have hres := verifyRoundsLoop_first_fail hashFn G proof.rounds 0 idx h
        out hpre hvr hbad
      have hidx : 0 + idx + 1 = idx + 1 := by omega
      rw [hidx] at hres
      exact hres

/-- The identity function standing in for a (here irrelevant) hash when a
claim is exercised at a concrete input. -/
def idHash : String → String := fun s => s

theorem verifyProof_structure_witness :
    ([] : List ProofRound).length ≠ 1 ∧
    verifyProof idHash ⟨[], 1⟩ g2 =
      .ok ⟨false, some 0, some "Количество раундов не соответствует k"⟩ :=
  ⟨by decide, (verifyProof_structure idHash ⟨[], 1⟩ g2).1 (by decide)⟩

/-! ## `verifyRound` check order (C6) -/

/-- A round whose RevealPermutation response carries an invalid
permutation `[0,0]` AND whose commitment does not open. -/
def badPermRound : ProofRound := ⟨⟨"zzz", ""⟩, .reveal0 [0, 0] [(1, 2)]⟩

/-- C6 counterexample: on `badPermRound` the commitment does not open
against the canonical serialization of the revealed edge list, yet
`verifyRound` rejects with the invalid-permutation reason, because it
validates the permutation before opening the commitment. -/
theorem verifyRound_commitment_not_first_cex :
    isValidPermutation [0, 0] 2 = false ∧
    reconstructGraphFromEdges [(1, 2)] 2 = .ok g2 ∧
    openCommitment idHash ⟨"zzz", ""⟩ (serializeGraph g2) = false ∧
    verifyRound idHash badPermRound g2 1 =
      .ok ⟨false, some "Перестановка невалидна"⟩ := by
  refine ⟨rfl, rfl, by decide, rfl⟩

/-- C6 amended: for a RevealPermutation response `verifyRound` checks the
permutation's validity first — an invalid permutation is reported
regardless of the commitment — and only for a valid permutation (and a
reconstructible edge list) does a non-opening commitment yield the
commitment-mismatch rejection, which in turn precedes the isomorphism
check. -/
theorem verifyRound_check_order :
    ∀ (hashFn : String → String) (round : ProofRound) (G : Graph) (rn : Nat)
      (perm : List Int) (pge : List (Int × Int)),
      round.response = .reveal0 perm pge →
      ((isValidPermutation perm G.getVertexCount = false →
        verifyRound hashFn round G rn =
          .ok ⟨false, some "Перестановка невалидна"⟩) ∧
       (∀ g' : Graph, isValidPermutation perm G.getVertexCount = true →
        reconstructGraphFromEdges pge G.getVertexCount = .ok g' →
        openCommitment hashFn round.commitment (serializeGraph g') = false →
        verifyRound hashFn round G rn =
          .ok ⟨false, some "Коммит не соответствует графу G'"⟩)) := by
  intro hashFn round G rn perm pge hresp
  obtain ⟨com, resp⟩ := round
  dsimp only at hresp
  subst hresp
  constructor
  · intro hbad
    unfold verifyRound
    dsimp only
    rw [if_pos (by simp [hbad])]
  · intro g' hgood hrec hopen
    unfold verifyRound
    dsimp only
    rw [if_neg (by simp [hgood]), hrec]
    show (if ¬ openCommitment hashFn com (serializeGraph g') then _ else _)
        = _
    rw [if_pos (by simp [hopen])]

/-- A round with a valid permutation but a commitment that does not open. -/
def validPermBadComRound : ProofRound := ⟨⟨"zzz", ""⟩, .reveal0 [0, 1] [(1, 2)]⟩

theorem verifyRound_check_order_witness :
    verifyRound idHash validPermBadComRound g2 1 =
      .ok ⟨false, some "Коммит не соответствует графу G'"⟩ :=
  (verifyRound_check_order idHash validPermBadComRound g2 1 [0, 1] [(1, 2)]
      rfl).2 g2 rfl rfl (by decide)

/-- Witness for `isValidHamiltonianCycle_iff` at Scenario A's input. -/
theorem isValidHamiltonianCycle_iff_witness :
    isValidHamiltonianCycle cycleA gA = true :=
  (isValidHamiltonianCycle_iff cycleA gA).mpr
    ⟨by decide, by decide, by decide, by decide⟩

/-- Witness for `graph_constructor_one_indexed` at concrete inputs: the
Scenario-A 1-indexed input builds `gA` with the shifted edges, and a
0-indexed input touching vertex 0 makes construction throw. -/
theorem graph_constructor_one_indexed_witness :
    gA.getVertexCount = 5 ∧
    gA.getEdges = [(0, 1), (1, 2), (2, 3), (3, 4), (0, 4)] ∧
    (mkGraph ⟨2, 1, [[0, 1]]⟩).isOk = false := by
  obtain ⟨-, hb, -⟩ := graph_constructor_one_indexed inpA
  obtain ⟨hvc, hedges⟩ := hb gA rfl
  refine ⟨hvc, ?_, ?_⟩
  · rw [hedges]; decide
  · exact (graph_constructor_one_indexed ⟨2, 1, [[0, 1]]⟩).2.2
      ⟨[0, 1], by decide, by decide, Or.inl (by decide)⟩

end ZiKurs
